import Mathlib

/-!
Verification of the system-monitoring agent (src/src/main.rs).

Shallow embedding of the sampling-and-encoding core of the Rust
system-metrics agent: the stateful network-rate computation
(`NetworkTraffic::update`), the heaviest-process scan
(`get_heaviest_process`), the GPU probe (`get_gpu_info`), the RAM
conversion (`get_ram_usage`) and the per-tick line-protocol record
construction in `main`.

Modelling conventions:
* Rust `u64` values are `Nat`s; where overflow matters the wrapping
  subtraction is `wsub a b = (a + 2^64 - b) % 2^64` (release-profile
  semantics) and the overflow-checked subtraction of debug profiles,
  whose failure is a panic, is `csub : Nat → Nat → Option Nat`.
* `f32`/`f64` values are exact rationals `ℚ`; the IEEE special values
  produced by division by zero are captured by the type `F`
  (`fin q`, `inf`, `neginf`, `nan`).  Finite arithmetic is exact
  (rounding is not modelled); the quantities in the claims are either
  exactly representable or compared against the exact quotient.
* Rust strings are `List Char`; external effects (spawning `netstat`,
  `nvidia-smi`, reading the clock and the sysinfo snapshot) are inputs
  to the pure functions, and a Rust panic is an `Option.none` result.
-/

/-- IEEE-style floating value: a finite (exact) rational or one of the
special values produced by division by zero. -/
inductive F where
  | fin (q : ℚ)
  | inf
  | neginf
  | nan
deriving DecidableEq, Repr

/-- Wrapping `u64` subtraction `a.wrapping_sub(b)`: the behaviour of
`a - b` in Rust release builds (overflow checks off). -/
def wsub (a b : Nat) : Nat := (a + 2 ^ 64 - b) % 2 ^ 64

/-- Overflow-checked `u64` subtraction: the behaviour of `a - b` in Rust
debug builds, where `none` models the "attempt to subtract with
overflow" panic. -/
def csub (a b : Nat) : Option Nat := if b ≤ a then some (a - b) else none

/-- IEEE `f64` division of two nonnegative-integer-valued operands, as in
`(diff) as f64 / (elapsed) as f64`: exact quotient when the divisor is
nonzero, `+∞` for `positive / +0.0`, `NaN` for `+0.0 / +0.0`. -/
def f64divNat (a b : Nat) : F :=
  if b ≠ 0 then .fin ((a : ℚ) / (b : ℚ))
  else if a ≠ 0 then .inf
  else .nan

/-- Rust `char::is_ascii_digit`-style test used by the integer parser. -/
def isDigitChar (c : Char) : Bool := '0' ≤ c && c ≤ '9'

/-- Numeric value of a decimal digit character. -/
def charVal (c : Char) : Nat := c.toNat - 48

/-- Decimal value of a digit-character list, most significant first. -/
def parseNatChars (l : List Char) : Nat :=
  l.foldl (fun a c => 10 * a + charVal c) 0

/-- Rust `str::parse::<u64>()`: an optional `+` sign, then one or more
ASCII digits, value below `2^64`; anything else is an error (`none`). -/
def parseU64 (s : List Char) : Option Nat :=
  let s' := match s with
    | '+' :: rest => rest
    | _ => s
  if s' = [] then none
  else if s'.all isDigitChar then
    let n := parseNatChars s'
    if n < 2 ^ 64 then some n else none
  else none

/-- Rust `str::split_whitespace`: split on whitespace runs, dropping
empty pieces. -/
def splitWS (s : List Char) : List (List Char) :=
  (s.splitOnP Char.isWhitespace).filter (· ≠ [])

/-- One step of Rust `str::lines`: split on `'\n'`. -/
def splitNL (s : List Char) : List (List Char) := s.splitOnP (· = '\n')

/-- Rust `str::lines`: split on `'\n'`, a trailing newline yields no
final empty line, and a trailing `'\r'` is stripped from each line. -/
def rustLines (s : List Char) : List (List Char) :=
  let pieces := splitNL s
  let pieces := if pieces.getLast? = some [] then pieces.dropLast else pieces
  pieces.map (fun l => if l.getLast? = some '\r' then l.dropLast else l)

/-- State of `struct NetworkTraffic`: last observed cumulative byte
counters and the wall-clock second of the last successful sample
(`0` = never sampled). -/
structure NetworkTraffic where
  bytes_received : Nat
  bytes_sent : Nat
  timestamp : Nat
deriving DecidableEq, Repr

/-- Constructor `NetworkTraffic::new()`: all fields zero. -/
def NetworkTraffic.new : NetworkTraffic :=
  { bytes_received := 0, bytes_sent := 0, timestamp := 0 }

/-- The fallible part of `NetworkTraffic::update` (main.rs lines
124-141): run `netstat -e` (`raw = none` models a spawn failure or
non-UTF-8 output), require at least 5 lines, split line index 4 on
whitespace, require at least 3 fields, and parse fields 1 and 2 as
`u64`. -/
def netParse (raw : Option (List Char)) : Except String (Nat × Nat) :=
  match raw with
  | none => .error "failed to run netstat"
  | some out =>
    let lines := rustLines out
    if lines.length < 5 then .error "Unexpected output from netstat -e"
    else
      let parts := splitWS (lines.getD 4 [])
      if parts.length < 3 then .error "Unexpected output from netstat -e"
      else
        match parseU64 (parts.getD 1 []), parseU64 (parts.getD 2 []) with
        | some br, some bs => .ok (br, bs)
        | _, _ => .error "invalid digit found in string"

/-- Method `NetworkTraffic::update` (main.rs lines 123-162) as explicit state
passing: the returned state is the value of `self` after the call — on
every early `Err` return the state is the unchanged input, on the `Ok`
path the observed counters and current second are stored.  Rates use
`u64` subtraction (wrapping model) cast to `f64`, divided as `f64`. -/
def NetworkTraffic.update (st : NetworkTraffic) (raw : Option (List Char))
    (now : Nat) : Except String (F × F) × NetworkTraffic :=
  match netParse raw with
  | .error e => (.error e, st)
  | .ok (br, bs) =>
    let download_rate : F :=
      if 0 < st.timestamp then
        f64divNat (wsub br st.bytes_received) (wsub now st.timestamp)
      else .fin 0
    let upload_rate : F :=
      if 0 < st.timestamp then
        f64divNat (wsub bs st.bytes_sent) (wsub now st.timestamp)
      else .fin 0
    (.ok (download_rate, upload_rate),
      { bytes_received := br, bytes_sent := bs, timestamp := now })

/-- Function `get_heaviest_process` (main.rs lines 177-192): fold over the process
snapshot keeping the first strictly-larger CPU usage, starting from
usage `0.0` and the empty name. -/
def get_heaviest_process (procs : List (String × ℚ)) : String :=
  (procs.foldl
    (fun acc p => if p.2 > acc.1 then (p.2, p.1) else acc)
    ((0 : ℚ), "")).2

/-- Function `get_ram_usage` (main.rs lines 172-175): used memory in bytes
converted to GiB. -/
def get_ram_usage (usedBytes : Nat) : ℚ :=
  (usedBytes : ℚ) / 1024 / 1024 / 1024

/-- Outcome of spawning the external GPU query: either the spawn itself
failed, or it produced (UTF-8) standard output. -/
inductive GpuRaw where
  | unavailable
  | output (s : List Char)
deriving DecidableEq, Repr

/-- Rust `str::split(", ")`: split on non-overlapping, leftmost
occurrences of the two-character pattern. -/
def splitCSAux : List Char → List Char → List (List Char)
  | [], acc => [acc.reverse]
  | ',' :: ' ' :: rest, acc => acc.reverse :: splitCSAux rest []
  | c :: rest, acc => splitCSAux rest (c :: acc)

/-- Split a string on `", "`. -/
def splitCS (s : List Char) : List (List Char) := splitCSAux s []

/-- Rust `str::trim`: drop leading and trailing whitespace. -/
def trimChars (l : List Char) : List Char :=
  ((l.dropWhile Char.isWhitespace).reverse.dropWhile Char.isWhitespace).reverse

/-- Unsigned part of the decimal-literal grammar: one or more digits,
optionally a `.` and one or more digits. -/
def parseUnsigned (l : List Char) : Option ℚ :=
  let ip := l.takeWhile isDigitChar
  let rest := l.dropWhile isDigitChar
  if ip = [] then none
  else
    match rest with
    | [] => some ((parseNatChars ip : ℚ))
    | '.' :: fp =>
      if fp ≠ [] ∧ fp.all isDigitChar then
        some ((parseNatChars ip : ℚ) +
          (parseNatChars fp : ℚ) / (10 : ℚ) ^ fp.length)
      else none
    | _ => none

/-- Decimal-literal parser modelling `str::parse::<f32>()` /
`str::parse::<f64>()` on the forms the agent produces and consumes: an
optional `-` sign, one or more digits, optionally a `.` and one or more
digits.  (Exponent, `inf` and `NaN` forms are not modelled.) -/
def parseQ (l : List Char) : Option ℚ :=
  match l with
  | '-' :: rest => (parseUnsigned rest).map (fun v => -v)
  | _ => parseUnsigned l

/-- Function `get_gpu_info` (main.rs lines 194-217): `exclude_gpu` short-circuits
to the sentinels; a failed spawn yields the sentinels; otherwise the
output is split on `", "` and the slots `splits[0]`, `splits[1]`,
`splits[2]` are indexed directly — `none` models the index-out-of-bounds
panic when fewer than three fields are present.  Each field is trimmed
and parsed independently with `unwrap_or(-1.0)`. -/
def get_gpu_info (exclude_gpu : Bool) (raw : GpuRaw) :
    Option (ℚ × ℚ × ℚ) :=
  if exclude_gpu then some (-1, -1, -1)
  else
    match raw with
    | .unavailable => some (-1, -1, -1)
    | .output s =>
      let splits := splitCS s
      if 3 ≤ splits.length then
        some ((parseQ (trimChars (splits.getD 0 []))).getD (-1),
              (parseQ (trimChars (splits.getD 1 []))).getD (-1),
              (parseQ (trimChars (splits.getD 2 []))).getD (-1))
      else none

/-- Decimal digits of `n`, least significant first (`[]` for `0`). -/
def digitsRev (n : Nat) : List Nat :=
  if h : n = 0 then [] else n % 10 :: digitsRev (n / 10)

/-- Decimal rendering of a `Nat`, as Rust `Display` for unsigned
integers produces it. -/
def natToChars (n : Nat) : List Char :=
  if n = 0 then ['0'] else ((digitsRev n).map Nat.digitChar).reverse

/-- Strip up to `k` trailing zero digits from `m`, returning the
stripped value and the number of digits kept (out of `k`). -/
def stripZeros : Nat → Nat → Nat × Nat
  | m, 0 => (m, 0)
  | m, k + 1 => if m % 10 = 0 then stripZeros (m / 10) k else (m, k + 1)

/-- Render `n` as exactly `k` decimal digits, left-padded with zeros. -/
def padDigits (n k : Nat) : List Char :=
  List.replicate (k - (natToChars n).length) '0' ++ natToChars n

/-- Rust `Display` formatting of a finite float value held as an exact
rational: sign, then shortest terminating decimal expansion, with no
decimal point for integers and no trailing zeros otherwise (matching
`format!("{}", x)` on exactly-represented values). -/
def fmtQ (q : ℚ) : List Char :=
  let sgn : List Char := if q < 0 then ['-'] else []
  let a := q.num.natAbs
  if q.den = 1 then sgn ++ natToChars a
  else
    let k := q.den
    let m := a * 10 ^ k / q.den
    let p := stripZeros m k
    sgn ++ natToChars (p.1 / 10 ^ p.2) ++ '.' :: padDigits (p.1 % 10 ^ p.2) p.2

/-- Rust `Display` formatting of an `f64`, including the special
values (`"inf"`, `"-inf"`, `"NaN"`). -/
def fmtF : F → List Char
  | .fin q => fmtQ q
  | .inf => "inf".data
  | .neginf => "-inf".data
  | .nan => "NaN".data

/-- One tick's `Sample`: every measured value assembled in `main`'s loop
body (main.rs lines 58-94) before encoding.  Finite `f32` readings are
exact rationals; the two rates are `f64` values that may be non-finite. -/
structure Sample where
  cpu_usage : ℚ
  ram_usage : ℚ
  heaviest_process_name : List Char
  gpu_usage : ℚ
  gpu_temp : ℚ
  gpu_power : ℚ
  download_rate : F
  upload_rate : F
  timestamp : Nat
deriving DecidableEq, Repr

/-- The `format!` call of main.rs lines 83-94: one line-protocol record
with measurement `system_metrics`, tag `host=localhost`, the eight
fields in the source's fixed order (the process name interpolated
between literal double quotes), and the trailing nanosecond
timestamp. -/
def encodeSampleChars (s : Sample) : List Char :=
  "system_metrics,host=localhost cpu_usage=".data ++ fmtQ s.cpu_usage ++
  ",ram_usage=".data ++ fmtQ s.ram_usage ++
  ",heaviest_process=\"".data ++ s.heaviest_process_name ++
  "\",gpu_usage=".data ++ fmtQ s.gpu_usage ++
  ",gpu_temp=".data ++ fmtQ s.gpu_temp ++
  ",gpu_power=".data ++ fmtQ s.gpu_power ++
  ",download_rate=".data ++ fmtF s.download_rate ++
  ",upload_rate=".data ++ fmtF s.upload_rate ++
  " ".data ++ natToChars s.timestamp

/-- The encoded record as a `String`. -/
def encodeSample (s : Sample) : String := String.mk (encodeSampleChars s)

/-- External observations consumed by one iteration of `main`'s loop:
the captured nanosecond timestamp, the sysinfo CPU reading, used memory
in bytes, the process snapshot (name, CPU%), the `netstat` outcome and
current wall-clock second, and the GPU probe outcome. -/
structure TickInput where
  timestampNanos : Nat
  cpu_usage : ℚ
  ramBytes : Nat
  procs : List (String × ℚ)
  netRaw : Option (List Char)
  nowSecs : Nat
  exclude_gpu : Bool
  gpuRaw : GpuRaw

/-- One iteration of `main`'s loop body (main.rs lines 58-94) up to the
encoded record: sample every source, map a network-update error to the
`-1.0` sentinels while keeping the tracker state unchanged, assemble the
`Sample`, and encode it.  `none` models a panic inside the tick (the GPU
probe indexing). -/
def tick (st : NetworkTraffic) (inp : TickInput) :
    Option (Sample × List Char × NetworkTraffic) :=
  let cpu := inp.cpu_usage
  let ram := get_ram_usage inp.ramBytes
  let name := get_heaviest_process inp.procs
  let netRes := NetworkTraffic.update st inp.netRaw inp.nowSecs
  let rates : F × F := match netRes.1 with
    | .ok r => r
    | .error _ => (.fin (-1), .fin (-1))
  match get_gpu_info inp.exclude_gpu inp.gpuRaw with
  | none => none
  | some (gu, gt, gp) =>
    let sample : Sample :=
      { cpu_usage := cpu, ram_usage := ram,
        heaviest_process_name := name.data,
        gpu_usage := gu, gpu_temp := gt, gpu_power := gp,
        download_rate := rates.1, upload_rate := rates.2,
        timestamp := inp.timestampNanos }
    some (sample, encodeSampleChars sample, netRes.2)

/-- Consume an expected literal prefix, returning the remainder. -/
def dropPre : List Char → List Char → Option (List Char)
  | [], l => some l
  | _ :: _, [] => none
  | p :: ps, c :: cs => if p = c then dropPre ps cs else none

/-- Modelled from the spec: one numeric field of the line-protocol
record — the field value up to the separator, parsed as a decimal
number, followed by the expected literal (separator, next key and `=`). -/
def parseField (sep : Char) (lit : List Char) (l : List Char) :
    Option (ℚ × List Char) :=
  match parseQ (l.takeWhile (· ≠ sep)), dropPre lit (l.dropWhile (· ≠ sep)) with
  | some v, some r => some (v, r)
  | _, _ => none

/-- Modelled from the spec: the quoted string field holding the process
name — the value up to the closing quote, followed by the literal
closing quote, comma and next key. -/
def parseName (l : List Char) : Option (List Char × List Char) :=
  match dropPre "\",gpu_usage=".data (l.dropWhile (· ≠ '"')) with
  | none => none
  | some r => some (l.takeWhile (· ≠ '"'), r)

/-- Modelled from the spec: the final upload-rate field and the trailing
nanosecond timestamp, separated by a single space. -/
def parseTail (l : List Char) : Option (ℚ × Nat) :=
  match parseQ (l.takeWhile (· ≠ ' ')), l.dropWhile (· ≠ ' ') with
  | some ul, ' ' :: tsC =>
    if tsC ≠ [] ∧ tsC.all isDigitChar then
      some (ul, parseNatChars tsC)
    else none
  | _, _ => none

/-- Modelled from the spec: a line-protocol parser for the
`system_metrics` schema (the consumer-side parser the spec's round-trip
property refers to; it is not part of src/).  It accepts the record
shape the spec fixes — measurement `system_metrics`, tag
`host=localhost`, the eight fields in their fixed order with the
process name as a quoted string field, and a trailing integer
nanosecond timestamp — and recovers the field values. -/
def parseLine (l : List Char) : Option Sample :=
  (dropPre "system_metrics,host=localhost cpu_usage=".data l).bind fun r0 =>
  (parseField ',' ",ram_usage=".data r0).bind fun p1 =>
  (parseField ',' ",heaviest_process=\"".data p1.2).bind fun p2 =>
  (parseName p2.2).bind fun pn =>
  (parseField ',' ",gpu_temp=".data pn.2).bind fun p3 =>
  (parseField ',' ",gpu_power=".data p3.2).bind fun p4 =>
  (parseField ',' ",download_rate=".data p4.2).bind fun p5 =>
  (parseField ',' ",upload_rate=".data p5.2).bind fun p6 =>
  (parseTail p6.2).map fun pt =>
    { cpu_usage := p1.1, ram_usage := p2.1, heaviest_process_name := pn.1,
      gpu_usage := p3.1, gpu_temp := p4.1, gpu_power := p5.1,
      download_rate := .fin p6.1, upload_rate := .fin pt.1,
      timestamp := pt.2 }

/-- A rational has a terminating decimal expansion usable by `fmtQ`
(every finite binary float does, since `2^e ∣ 10^e`). -/
def DecimalRep (q : ℚ) : Prop := q.den ∣ 10 ^ q.den

instance (q : ℚ) : Decidable (DecimalRep q) :=
  inferInstanceAs (Decidable (q.den ∣ 10 ^ q.den))

/-- Specification of the heaviest-process scan in the claim's words: the
first-encountered process attaining the maximum CPU usage, provided that
maximum strictly exceeds the floor `0.0`; otherwise the empty string. -/
def heaviestSpec (procs : List (String × ℚ)) : String :=
  match procs.find?
      (fun p => decide (0 < p.2) && decide (∀ q ∈ procs, q.2 ≤ p.2)) with
  | some p => p.1
  | none => ""

/-! Helper lemmas about the network tracker. -/

theorem parseU64_lt {s : List Char} {n : Nat} (h : parseU64 s = some n) :
    n < 2 ^ 64 := by
  simp only [parseU64] at h
  split at h
  · exact absurd h (by simp)
  · split at h
    · split at h
      · exact Option.some_injective _ h ▸ (by assumption)
      · exact absurd h (by simp)
    · exact absurd h (by simp)

theorem netParse_lt {raw : Option (List Char)} {br bs : Nat}
    (h : netParse raw = .ok (br, bs)) : br < 2 ^ 64 ∧ bs < 2 ^ 64 := by
  simp only [netParse] at h
  split at h
  · exact absurd h (by simp)
  · split at h
    · exact absurd h (by simp)
    · split at h
      · exact absurd h (by simp)
      · split at h
        · rename_i hbr hbs
          injection h with h'
          cases h'
          exact ⟨parseU64_lt hbr, parseU64_lt hbs⟩
        · exact absurd h (by simp)

theorem wsub_of_le {a b : Nat} (h : b ≤ a) (ha : a < 2 ^ 64) :
    wsub a b = a - b := by
  unfold wsub; omega

theorem wsub_self (a : Nat) : wsub a a = 0 := by
  unfold wsub; omega

theorem update_ok (st : NetworkTraffic) (raw : Option (List Char))
    (now br bs : Nat) (h : netParse raw = .ok (br, bs)) :
    NetworkTraffic.update st raw now =
      (.ok
        (if 0 < st.timestamp then
            f64divNat (wsub br st.bytes_received) (wsub now st.timestamp)
          else .fin 0,
         if 0 < st.timestamp then
            f64divNat (wsub bs st.bytes_sent) (wsub now st.timestamp)
          else .fin 0),
       { bytes_received := br, bytes_sent := bs, timestamp := now }) := by
  simp only [NetworkTraffic.update, h]

theorem update_error (st : NetworkTraffic) (raw : Option (List Char))
    (now : Nat) (e : String) (h : netParse raw = .error e) :
    NetworkTraffic.update st raw now = (.error e, st) := by
  simp only [NetworkTraffic.update, h]

theorem update_fst_error_snd (st : NetworkTraffic) (raw : Option (List Char))
    (now : Nat) (e : String)
    (h : (NetworkTraffic.update st raw now).1 = .error e) :
    (NetworkTraffic.update st raw now).2 = st := by
  cases hp : netParse raw with
  | error e' => rw [update_error st raw now e' hp]
  | ok p => rw [update_ok st raw now p.1 p.2 hp] at h ⊢; cases h

theorem update_fst_ok_snd (st : NetworkTraffic) (raw : Option (List Char))
    (now : Nat) (r : F × F)
    (h : (NetworkTraffic.update st raw now).1 = .ok r) :
    ∃ br bs, netParse raw = .ok (br, bs) ∧
      (NetworkTraffic.update st raw now).2 =
        { bytes_received := br, bytes_sent := bs, timestamp := now } := by
  cases hp : netParse raw with
  | error e' => rw [update_error st raw now e' hp] at h; cases h
  | ok p =>
    obtain ⟨br, bs⟩ := p
    exact ⟨br, bs, rfl, by rw [update_ok st raw now br bs hp]⟩

/-- C1: for every successful `NetworkTraffic::update` after a prior
successful call (stored timestamp > 0), with monotonic observations
(new counters at least the stored ones, current second strictly after
the stored second), the returned pair is exactly
`((received_now - received_prev) / elapsed, (sent_now - sent_prev) / elapsed)`
and the stored counters and timestamp are advanced to the new
observations. -/
theorem update_monotonic_rate (st : NetworkTraffic) (raw : Option (List Char))
    (now br bs : Nat)
    (hparse : netParse raw = .ok (br, bs)) (hts : 0 < st.timestamp)
    (hbr : st.bytes_received ≤ br) (hbs : st.bytes_sent ≤ bs)
    (hlt : st.timestamp < now) (hnow : now < 2 ^ 64) :
    NetworkTraffic.update st raw now =
      (.ok
        (.fin (((br : ℚ) - (st.bytes_received : ℚ)) /
               ((now : ℚ) - (st.timestamp : ℚ))),
         .fin (((bs : ℚ) - (st.bytes_sent : ℚ)) /
               ((now : ℚ) - (st.timestamp : ℚ)))),
       { bytes_received := br, bytes_sent := bs, timestamp := now }) := by
  have h1 := netParse_lt hparse
  rw [update_ok st raw now br bs hparse, if_pos hts, if_pos hts,
    wsub_of_le hbr h1.1, wsub_of_le hbs h1.2, wsub_of_le hlt.le hnow]
  have hne : now - st.timestamp ≠ 0 := by omega
  simp only [f64divNat, ne_eq, hne, not_false_iff, if_true]
  rw [Nat.cast_sub hbr, Nat.cast_sub hbs, Nat.cast_sub hlt.le]

/-- Witness for C1 at a concrete input: baseline (1, 2, second 50),
observed counters (11, 22) at second 52, rates ((11-1)/2, (22-2)/2). -/
theorem update_monotonic_rate_witness :
    NetworkTraffic.update
        { bytes_received := 1, bytes_sent := 2, timestamp := 50 }
        (some "a\nb\nc\nd\nBytes 11 22".data) 52 =
      (.ok (.fin 5, .fin 10),
       { bytes_received := 11, bytes_sent := 22, timestamp := 52 }) := by
  have h := update_monotonic_rate
    { bytes_received := 1, bytes_sent := 2, timestamp := 50 }
    (some "a\nb\nc\nd\nBytes 11 22".data) 52 11 22
    rfl (by norm_num) (by norm_num) (by norm_num) (by norm_num) (by norm_num)
  rw [h]; norm_num

/-- C2: the first successful update after construction (stored
timestamp = 0) returns exactly `(0.0, 0.0)` whatever the observed
counters, and stores the observed counters and the current second. -/
theorem update_first_call (st : NetworkTraffic) (raw : Option (List Char))
    (now br bs : Nat)
    (h0 : st.timestamp = 0) (hparse : netParse raw = .ok (br, bs)) :
    NetworkTraffic.update st raw now =
      (.ok (.fin 0, .fin 0),
       { bytes_received := br, bytes_sent := bs, timestamp := now }) := by
  rw [update_ok st raw now br bs hparse]
  simp [h0]

/-- Witness for C2: the fresh tracker of `NetworkTraffic::new` with
observed counters (999, 888) at second 1000 yields `(0.0, 0.0)`. -/
theorem update_first_call_witness :
    NetworkTraffic.update NetworkTraffic.new
        (some "a\nb\nc\nd\nBytes 999 888".data) 1000 =
      (.ok (.fin 0, .fin 0),
       { bytes_received := 999, bytes_sent := 888, timestamp := 1000 }) :=
  update_first_call NetworkTraffic.new
    (some "a\nb\nc\nd\nBytes 999 888".data) 1000 999 888 rfl rfl

/-- C3: `NetworkTraffic::update` mutates its state exactly on `Ok`:
every error return (command unavailable, malformed output, unparseable
fields) leaves all three stored fields unchanged, and every success
stores exactly the newly observed counters and second. -/
theorem update_state_discipline (st : NetworkTraffic)
    (raw : Option (List Char)) (now : Nat) :
    (∀ e, (NetworkTraffic.update st raw now).1 = .error e →
      (NetworkTraffic.update st raw now).2 = st) ∧
    (∀ r, (NetworkTraffic.update st raw now).1 = .ok r →
      ∃ br bs, netParse raw = .ok (br, bs) ∧
        (NetworkTraffic.update st raw now).2 =
          { bytes_received := br, bytes_sent := bs, timestamp := now }) :=
  ⟨fun e h => update_fst_error_snd st raw now e h,
   fun r h => update_fst_ok_snd st raw now r h⟩

/-- Witness for C3: a failed `netstat` spawn leaves the state (3, 4, 5)
untouched. -/
theorem update_state_discipline_witness :
    (NetworkTraffic.update
        { bytes_received := 3, bytes_sent := 4, timestamp := 5 }
        none 7).2 =
      { bytes_received := 3, bytes_sent := 4, timestamp := 5 } :=
  (update_state_discipline
    { bytes_received := 3, bytes_sent := 4, timestamp := 5 } none 7).1
    "failed to run netstat" rfl

/-- C4 (code bug): with a baseline (10, 10, second 100) and a
non-monotonic observation (5, 5) at second 101, the source's
`(bytes_received - self.bytes_received) as f64` subtracts `u64`s before
casting, so a debug build panics (`csub 5 10 = none`) and a release
build wraps to `2^64 - 5`, giving the huge positive rate
`18446744073709551611`, not the negative rate the claim describes. -/
theorem update_counter_reset_behaviour :
    csub 5 10 = none ∧
    (NetworkTraffic.update
        { bytes_received := 10, bytes_sent := 10, timestamp := 100 }
        (some "a\nb\nc\nd\nBytes 5 5".data) 101).1 =
      .ok (.fin 18446744073709551611, .fin 18446744073709551611) ∧
    (0 : ℚ) < 18446744073709551611 := by
  refine ⟨rfl, ?_, by norm_num⟩
  rw [update_ok
    { bytes_received := 10, bytes_sent := 10, timestamp := 100 }
    (some "a\nb\nc\nd\nBytes 5 5".data) 101 5 5 rfl]
  norm_num [wsub, f64divNat]

/-- C10: when a baseline exists and a successful update happens in the
same wall-clock second (elapsed = 0), the rate divisions have
denominator 0.0 and return `inf` (or `NaN` when the counter difference
is also 0) — not an error and not the `-1.0` sentinel — and these
non-finite values flow unmodified into the tick's `Sample` and its
encoded record. -/
theorem update_same_second (st : NetworkTraffic) (raw : Option (List Char))
    (now br bs : Nat)
    (hparse : netParse raw = .ok (br, bs)) (hts : 0 < st.timestamp)
    (hnow : now = st.timestamp)
    (hbr : st.bytes_received ≤ br) (hbs : st.bytes_sent ≤ bs) :
    (NetworkTraffic.update st raw now).1 =
      .ok ((if st.bytes_received < br then F.inf else F.nan),
           (if st.bytes_sent < bs then F.inf else F.nan)) ∧
    (∀ (inp : TickInput) (gu gt gp : ℚ),
      inp.netRaw = raw → inp.nowSecs = now →
      get_gpu_info inp.exclude_gpu inp.gpuRaw = some (gu, gt, gp) →
      ∃ smp st', tick st inp = some (smp, encodeSampleChars smp, st') ∧
        smp.download_rate = (if st.bytes_received < br then F.inf else F.nan) ∧
        smp.upload_rate = (if st.bytes_sent < bs then F.inf else F.nan)) := by
  have h1 := netParse_lt hparse
  have hup : NetworkTraffic.update st raw now =
      (.ok ((if st.bytes_received < br then F.inf else F.nan),
            (if st.bytes_sent < bs then F.inf else F.nan)),
       { bytes_received := br, bytes_sent := bs, timestamp := now }) := by
    rw [update_ok st raw now br bs hparse, if_pos hts, if_pos hts, hnow,
      wsub_self, wsub_of_le hbr h1.1, wsub_of_le hbs h1.2]
    simp only [f64divNat, ne_eq, not_true, if_false, ite_not, if_neg,
      not_false_iff]
    have e1 : (br - st.bytes_received ≠ 0) ↔ st.bytes_received < br := by omega
    have e2 : (bs - st.bytes_sent ≠ 0) ↔ st.bytes_sent < bs := by omega
    by_cases c1 : st.bytes_received < br <;> by_cases c2 : st.bytes_sent < bs <;>
      simp [e1.not.mpr, e1.mpr, e2.not.mpr, e2.mpr, c1, c2, e1, e2]
  refine ⟨by rw [hup], ?_⟩
  intro inp gu gt gp hraw hsec hgpu
  refine ⟨⟨inp.cpu_usage, get_ram_usage inp.ramBytes,
    (get_heaviest_process inp.procs).data, gu, gt, gp,
    (if st.bytes_received < br then F.inf else F.nan),
    (if st.bytes_sent < bs then F.inf else F.nan),
    inp.timestampNanos⟩,
    { bytes_received := br, bytes_sent := bs, timestamp := now }, ?_, rfl, rfl⟩
  simp only [tick, hraw, hsec, hup, hgpu]

/-- Witness for C10: baseline (1, 2, second 50), observed (5, 2) again
at second 50: download rate `inf` (positive difference over zero
elapsed), upload rate `NaN` (zero over zero), flowing into the tick's
sample. -/
theorem update_same_second_witness :
    ∃ smp st',
      tick { bytes_received := 1, bytes_sent := 2, timestamp := 50 }
        { timestampNanos := 123, cpu_usage := 0, ramBytes := 0, procs := [],
          netRaw := some "a\nb\nc\nd\nBytes 5 2".data, nowSecs := 50,
          exclude_gpu := true, gpuRaw := .unavailable } =
        some (smp, encodeSampleChars smp, st') ∧
      smp.download_rate = F.inf ∧ smp.upload_rate = F.nan := by
  obtain ⟨smp, st', h1, h2, h3⟩ :=
    (update_same_second { bytes_received := 1, bytes_sent := 2, timestamp := 50 }
      (some "a\nb\nc\nd\nBytes 5 2".data) 50 5 2 rfl (by norm_num) rfl
      (by norm_num) (by norm_num)).2
      { timestampNanos := 123, cpu_usage := 0, ramBytes := 0, procs := [],
        netRaw := some "a\nb\nc\nd\nBytes 5 2".data, nowSecs := 50,
        exclude_gpu := true, gpuRaw := .unavailable }
      (-1) (-1) (-1) rfl rfl rfl
  exact ⟨smp, st', h1, by simpa using h2, by simpa using h3⟩

/-- C7: in a tick whose network update fails, the assembled sample has
download and upload rates exactly `-1.0` while every other field holds
its own successfully sampled value, the tracker state is untouched, and
the tick still produces its encoded record (it is not aborted or
skipped). -/
theorem tick_degrades_network (st : NetworkTraffic) (inp : TickInput)
    (e : String) (gu gt gp : ℚ)
    (hnet : (NetworkTraffic.update st inp.netRaw inp.nowSecs).1 = .error e)
    (hgpu : get_gpu_info inp.exclude_gpu inp.gpuRaw = some (gu, gt, gp)) :
    tick st inp =
      some
        ({ cpu_usage := inp.cpu_usage,
           ram_usage := get_ram_usage inp.ramBytes,
           heaviest_process_name := (get_heaviest_process inp.procs).data,
           gpu_usage := gu, gpu_temp := gt, gpu_power := gp,
           download_rate := .fin (-1), upload_rate := .fin (-1),
           timestamp := inp.timestampNanos },
         encodeSampleChars
           { cpu_usage := inp.cpu_usage,
             ram_usage := get_ram_usage inp.ramBytes,
             heaviest_process_name := (get_heaviest_process inp.procs).data,
             gpu_usage := gu, gpu_temp := gt, gpu_power := gp,
             download_rate := .fin (-1), upload_rate := .fin (-1),
             timestamp := inp.timestampNanos },
         st) := by
  have hsnd := update_fst_error_snd st inp.netRaw inp.nowSecs e hnet
  simp only [tick, hnet, hgpu, hsnd]

/-- Witness for C7: a tick with a failed `netstat` spawn and an excluded
GPU produces the sample with sentinel rates and the other fields
sampled, leaving the tracker state (1, 2, 3) unchanged. -/
theorem tick_degrades_network_witness :
    tick { bytes_received := 1, bytes_sent := 2, timestamp := 3 }
      { timestampNanos := 999, cpu_usage := 7, ramBytes := 1073741824,
        procs := [("firefox", 3)], netRaw := none, nowSecs := 55,
        exclude_gpu := true, gpuRaw := .unavailable } =
      some
        ({ cpu_usage := 7, ram_usage := get_ram_usage 1073741824,
           heaviest_process_name := (get_heaviest_process [("firefox", 3)]).data,
           gpu_usage := -1, gpu_temp := -1, gpu_power := -1,
           download_rate := .fin (-1), upload_rate := .fin (-1),
           timestamp := 999 },
         encodeSampleChars
           { cpu_usage := 7, ram_usage := get_ram_usage 1073741824,
             heaviest_process_name := (get_heaviest_process [("firefox", 3)]).data,
             gpu_usage := -1, gpu_temp := -1, gpu_power := -1,
             download_rate := .fin (-1), upload_rate := .fin (-1),
             timestamp := 999 },
         { bytes_received := 1, bytes_sent := 2, timestamp := 3 }) :=
  tick_degrades_network
    { bytes_received := 1, bytes_sent := 2, timestamp := 3 }
    { timestampNanos := 999, cpu_usage := 7, ramBytes := 1073741824,
      procs := [("firefox", 3)], netRaw := none, nowSecs := 55,
      exclude_gpu := true, gpuRaw := .unavailable }
    "failed to run netstat" (-1) (-1) (-1) rfl rfl

/-- C6 counterexample: if the GPU utility runs but prints fewer than
three comma-separated fields (here just `"45"`), `get_gpu_info`
indexes `splits[1]` out of bounds and panics — the probe does abort, so
it is not true that every outcome is surfaced without error. -/
theorem gpu_probe_short_output_panics :
    get_gpu_info false (.output "45".data) = none := by decide

/-- C6 (amended): with `excluded = false`, a GPU utility that cannot be
invoked at all yields `(-1, -1, -1)`; when it can be invoked and its
output splits into at least three `", "`-separated fields, each of the
first three fields is trimmed and parsed independently, a failing field
yielding `-1.0` for that field alone — in particular
`"45, bad, 120"` decodes to `(45, -1, 120)`.  (Outputs with fewer than
three fields make the probe panic, per the counterexample.) -/
theorem gpu_probe_tolerant (raw : GpuRaw) :
    get_gpu_info false .unavailable = some (-1, -1, -1) ∧
    (∀ s, raw = .output s → 3 ≤ (splitCS s).length →
      get_gpu_info false raw =
        some ((parseQ (trimChars ((splitCS s).getD 0 []))).getD (-1),
              (parseQ (trimChars ((splitCS s).getD 1 []))).getD (-1),
              (parseQ (trimChars ((splitCS s).getD 2 []))).getD (-1))) ∧
    get_gpu_info false (.output "45, bad, 120".data) = some (45, -1, 120) := by
  refine ⟨rfl, ?_, by decide⟩
  rintro s rfl h3
  simp [get_gpu_info, h3]

/-- Witness for C6: the three-field output `"45, 70, 120"` decodes to
`(45, 70, 120)` via the amended theorem. -/
theorem gpu_probe_tolerant_witness :
    get_gpu_info false (.output "45, 70, 120".data) = some (45, 70, 120) := by
  have h := (gpu_probe_tolerant (.output "45, 70, 120".data)).2.1
    "45, 70, 120".data rfl (by decide)
  rw [h]; decide

/-! Helper lemmas for the heaviest-process fold. -/

theorem find?_congr_mem {α} (l : List α) (f g : α → Bool)
    (h : ∀ x ∈ l, f x = g x) : l.find? f = l.find? g := by
  induction l with
  | nil => rfl
  | cons a l ih =>
    by_cases hga : g a = true
    · rw [List.find?_cons_of_pos _ (by rw [h a (List.mem_cons_self a l)]; exact hga),
        List.find?_cons_of_pos _ hga]
    · rw [List.find?_cons_of_neg _ (by rw [h a (List.mem_cons_self a l)]; exact hga),
        List.find?_cons_of_neg _ hga]
      exact ih fun x hx => h x (List.mem_cons_of_mem a hx)

theorem exists_max_snd : ∀ (l : List (String × ℚ)), l ≠ [] →
    ∃ x ∈ l, ∀ q ∈ l, q.2 ≤ x.2 := by
  intro l
  induction l with
  | nil => intro h; exact absurd rfl h
  | cons a l ih =>
    intro _
    rcases l with _ | ⟨b, l'⟩
    · refine ⟨a, List.mem_cons_self a [], fun q hq => ?_⟩
      rcases List.mem_cons.mp hq with rfl | h'
      · exact le_refl _
      · cases h'
    · obtain ⟨x, hx, hmax⟩ := ih (by simp)
      by_cases hax : a.2 ≤ x.2
      · refine ⟨x, List.mem_cons_of_mem a hx, fun q hq => ?_⟩
        rcases List.mem_cons.mp hq with rfl | hq'
        · exact hax
        · exact hmax q hq'
      · refine ⟨a, List.mem_cons_self a _, fun q hq => ?_⟩
        rcases List.mem_cons.mp hq with rfl | hq'
        · exact le_refl _
        · exact le_trans (hmax q hq') (le_of_not_le hax)

theorem heaviest_fold (l : List (String × ℚ)) (m : ℚ) (n : String) :
    (l.foldl (fun acc p => if p.2 > acc.1 then (p.2, p.1) else acc) (m, n)).2 =
      match l.find? (fun p => decide (m < p.2) && decide (∀ q ∈ l, q.2 ≤ p.2)) with
      | some p => p.1
      | none => n := by
  induction l generalizing m n with
  | nil => rfl
  | cons a l ih =>
    rw [List.foldl_cons]
    by_cases ha : m < a.2
    · rw [if_pos (show a.2 > m from ha), ih a.2 a.1]
      by_cases hall : ∀ q ∈ l, q.2 ≤ a.2
      · have hfind : List.find?
            (fun p => decide (m < p.2) && decide (∀ q ∈ a :: l, q.2 ≤ p.2))
            (a :: l) = some a := by
          apply List.find?_cons_of_pos
          show (decide (m < a.2) && decide (∀ q ∈ a :: l, q.2 ≤ a.2)) = true
          simp only [Bool.and_eq_true, decide_eq_true_eq]
          refine ⟨ha, fun q hq => ?_⟩
          rcases List.mem_cons.mp hq with rfl | hq'
          · exact le_refl _
          · exact hall q hq'
        rw [hfind]
        have hnone : l.find? (fun p => decide (a.2 < p.2) &&
            decide (∀ q ∈ l, q.2 ≤ p.2)) = none := by
          rw [List.find?_eq_none]
          intro x hx
          simp only [Bool.and_eq_true, decide_eq_true_eq, not_and]
          exact fun hlt => absurd hlt (not_lt.mpr (hall x hx))
        rw [hnone]
      · push_neg at hall
        obtain ⟨w, hw, hlt⟩ := hall
        have hskip : List.find?
            (fun p => decide (m < p.2) && decide (∀ q ∈ a :: l, q.2 ≤ p.2))
            (a :: l) =
            List.find?
              (fun p => decide (m < p.2) && decide (∀ q ∈ a :: l, q.2 ≤ p.2))
              l := by
          apply List.find?_cons_of_neg
          show ¬ (decide (m < a.2) && decide (∀ q ∈ a :: l, q.2 ≤ a.2)) = true
          simp only [Bool.and_eq_true, decide_eq_true_eq, not_and]
          exact fun _ hall' => absurd hlt
            (not_lt.mpr (hall' w (List.mem_cons_of_mem a hw)))
        rw [hskip]
        have hcongr := find?_congr_mem l
          (fun p => decide (a.2 < p.2) && decide (∀ q ∈ l, q.2 ≤ p.2))
          (fun p => decide (m < p.2) && decide (∀ q ∈ a :: l, q.2 ≤ p.2))
          (fun x hx => by
            show (decide (a.2 < x.2) && decide (∀ q ∈ l, q.2 ≤ x.2)) =
              (decide (m < x.2) && decide (∀ q ∈ a :: l, q.2 ≤ x.2))
            have hiff : (a.2 < x.2 ∧ ∀ q ∈ l, q.2 ≤ x.2) ↔
                (m < x.2 ∧ ∀ q ∈ a :: l, q.2 ≤ x.2) := by
              constructor
              · rintro ⟨h1, h2⟩
                refine ⟨lt_trans ha h1, fun q hq => ?_⟩
                rcases List.mem_cons.mp hq with rfl | hq'
                · exact h1.le
                · exact h2 q hq'
              · rintro ⟨h1, h2⟩
                exact ⟨lt_of_lt_of_le hlt (h2 w (List.mem_cons_of_mem a hw)),
                  fun q hq => h2 q (List.mem_cons_of_mem a hq)⟩
            rw [← Bool.decide_and, ← Bool.decide_and]
            exact decide_eq_decide.mpr hiff)
        rw [hcongr]
        obtain ⟨x, hx, hmax⟩ := exists_max_snd (a :: l) (by simp)
        have hxl : x ∈ l := by
          rcases List.mem_cons.mp hx with rfl | hx'
          · exact absurd (hmax w (List.mem_cons_of_mem x hw)) (not_le.mpr hlt)
          · exact hx'
        have hpx : (decide (m < x.2) && decide (∀ q ∈ a :: l, q.2 ≤ x.2))
            = true := by
          simp only [Bool.and_eq_true, decide_eq_true_eq]
          exact ⟨lt_of_lt_of_le (lt_trans ha hlt)
            (hmax w (List.mem_cons_of_mem a hw)), hmax⟩
        cases hf : List.find?
            (fun p => decide (m < p.2) && decide (∀ q ∈ a :: l, q.2 ≤ p.2))
            l with
        | some y => rfl
        | none => exact absurd hpx (List.find?_eq_none.mp hf x hxl)
    · rw [if_neg (show ¬ a.2 > m from ha), ih m n]
      have hskip : List.find?
          (fun p => decide (m < p.2) && decide (∀ q ∈ a :: l, q.2 ≤ p.2))
          (a :: l) =
          List.find?
            (fun p => decide (m < p.2) && decide (∀ q ∈ a :: l, q.2 ≤ p.2))
            l := by
        apply List.find?_cons_of_neg
        show ¬ (decide (m < a.2) && decide (∀ q ∈ a :: l, q.2 ≤ a.2)) = true
        simp only [Bool.and_eq_true, decide_eq_true_eq, not_and]
        exact fun h1 => absurd h1 ha
      rw [hskip]
      have hcongr := find?_congr_mem l
        (fun p => decide (m < p.2) && decide (∀ q ∈ l, q.2 ≤ p.2))
        (fun p => decide (m < p.2) && decide (∀ q ∈ a :: l, q.2 ≤ p.2))
        (fun x hx => by
          show (decide (m < x.2) && decide (∀ q ∈ l, q.2 ≤ x.2)) =
            (decide (m < x.2) && decide (∀ q ∈ a :: l, q.2 ≤ x.2))
          have hiff : (m < x.2 ∧ ∀ q ∈ l, q.2 ≤ x.2) ↔
              (m < x.2 ∧ ∀ q ∈ a :: l, q.2 ≤ x.2) := by
            constructor
            · rintro ⟨h1, h2⟩
              refine ⟨h1, fun q hq => ?_⟩
              rcases List.mem_cons.mp hq with rfl | hq'
              · exact le_trans (not_lt.mp ha) h1.le
              · exact h2 q hq'
            · rintro ⟨h1, h2⟩
              exact ⟨h1, fun q hq => h2 q (List.mem_cons_of_mem a hq)⟩
          rw [← Bool.decide_and, ← Bool.decide_and]
          exact decide_eq_decide.mpr hiff)
      rw [hcongr]

/-- C5: `get_heaviest_process` returns the first-encountered process
attaining the maximum CPU usage when that maximum strictly exceeds 0.0,
and the empty string when no process exceeds 0.0 (including an empty
snapshot); on the snapshot [(A,10%), (B,55%), (C,30%)] it returns "B". -/
theorem heaviest_process_correct (procs : List (String × ℚ)) :
    get_heaviest_process procs = heaviestSpec procs ∧
    ((∀ p ∈ procs, p.2 ≤ 0) → get_heaviest_process procs = "") ∧
    get_heaviest_process [("A", 10), ("B", 55), ("C", 30)] = "B" := by
  have hmain : get_heaviest_process procs = heaviestSpec procs := by
    unfold get_heaviest_process heaviestSpec
    exact heaviest_fold procs 0 ""
  refine ⟨hmain, ?_, by decide⟩
  intro hall
  rw [hmain]
  unfold heaviestSpec
  have hnone : procs.find? (fun p => decide (0 < p.2) &&
      decide (∀ q ∈ procs, q.2 ≤ p.2)) = none := by
    rw [List.find?_eq_none]
    intro x hx
    simp only [Bool.and_eq_true, decide_eq_true_eq, not_and]
    exact fun h0 => absurd h0 (not_lt.mpr (hall x hx))
  rw [hnone]

/-- Witness for C5: a snapshot whose only process sits at the 0.0 floor
yields the empty string. -/
theorem heaviest_process_correct_witness :
    get_heaviest_process [("idle", 0)] = "" :=
  (heaviest_process_correct [("idle", 0)]).2.1 (by decide)

/-! Helper lemmas for decimal formatting and the record encoder. -/

theorem digitsRev_eq (n : Nat) :
    digitsRev n = if n = 0 then [] else n % 10 :: digitsRev (n / 10) := by
  rw [digitsRev]; split <;> rfl

/-- C8: encoding the sample (cpu 12.5, ram 3.2, process "chrome", GPU
sentinels -1, rates 1024 and 512, timestamp 1700000000000000000)
produces exactly the fixed-order line-protocol record of the claim. -/
theorem encode_sample_line :
    encodeSample
      { cpu_usage := mkRat 25 2, ram_usage := mkRat 16 5,
        heaviest_process_name := "chrome".data,
        gpu_usage := -1, gpu_temp := -1, gpu_power := -1,
        download_rate := .fin 1024, upload_rate := .fin 512,
        timestamp := 1700000000000000000 } =
      "system_metrics,host=localhost cpu_usage=12.5,ram_usage=3.2,heaviest_process=\"chrome\",gpu_usage=-1,gpu_temp=-1,gpu_power=-1,download_rate=1024,upload_rate=512 1700000000000000000" := by
  simp +decide [encodeSample, encodeSampleChars, fmtQ, fmtF, natToChars,
    digitsRev_eq, stripZeros, padDigits, Nat.digitChar,
    show (mkRat 25 2).den = 2 from by decide,
    show (mkRat 25 2).num = 25 from by decide,
    show ¬ (mkRat 25 2) < 0 from by decide,
    show (mkRat 16 5).den = 5 from by decide,
    show (mkRat 16 5).num = 16 from by decide,
    show ¬ (mkRat 16 5) < 0 from by decide]

theorem digitsRev_spec (n : Nat) : digitsRev n = Nat.digits 10 n := by
  induction n using Nat.strong_induction_on with
  | _ n ih =>
    rw [digitsRev_eq]
    by_cases h : n = 0
    · simp [h]
    · rw [if_neg h, Nat.digits_def' (by norm_num : 1 < 10) (Nat.pos_of_ne_zero h),
        ih (n / 10) (Nat.div_lt_self (Nat.pos_of_ne_zero h) (by norm_num))]

theorem isDigitChar_digitChar {d : Nat} (h : d < 10) :
    isDigitChar (Nat.digitChar d) = true := by
  interval_cases d <;> decide

theorem charVal_digitChar {d : Nat} (h : d < 10) :
    charVal (Nat.digitChar d) = d := by
  interval_cases d <;> decide

theorem natToChars_ne_nil (n : Nat) : natToChars n ≠ [] := by
  unfold natToChars
  split
  · exact List.cons_ne_nil _ _
  · rename_i h
    intro hcon
    have : (digitsRev n) = [] := by
      have := congrArg List.length hcon
      simpa using this
    rw [digitsRev_spec] at this
    exact h (Nat.digits_eq_nil_iff_eq_zero.mp this)

theorem natToChars_all_digit (n : Nat) :
    ∀ c ∈ natToChars n, isDigitChar c = true := by
  unfold natToChars
  split
  · intro c hc
    simp only [List.mem_singleton] at hc
    subst hc; decide
  · intro c hc
    simp only [List.mem_reverse, List.mem_map] at hc
    obtain ⟨d, hd, rfl⟩ := hc
    rw [digitsRev_spec] at hd
    exact isDigitChar_digitChar (Nat.digits_lt_base (by norm_num) hd)

theorem parseNatChars_append (l1 l2 : List Char) :
    parseNatChars (l1 ++ l2) =
      l2.foldl (fun a c => 10 * a + charVal c) (parseNatChars l1) := by
  unfold parseNatChars
  rw [List.foldl_append]

theorem foldl_digits_eq_ofDigits (ds : List Nat) (hds : ∀ d ∈ ds, d < 10) :
    ((ds.map Nat.digitChar).reverse).foldl (fun a c => 10 * a + charVal c) 0 =
      Nat.ofDigits 10 ds := by
  induction ds with
  | nil => rfl
  | cons d ds ih =>
    rw [List.map_cons, List.reverse_cons, List.foldl_append]
    simp only [List.foldl_cons, List.foldl_nil]
    rw [ih (fun x hx => hds x (List.mem_cons_of_mem d hx)),
      charVal_digitChar (hds d (List.mem_cons_self d ds)), Nat.ofDigits_cons]
    ring

theorem parseNatChars_natToChars (n : Nat) :
    parseNatChars (natToChars n) = n := by
  unfold natToChars
  split
  · rename_i h; rw [h]; rfl
  · rw [digitsRev_spec]
    unfold parseNatChars
    rw [foldl_digits_eq_ofDigits _
      (fun d hd => Nat.digits_lt_base (by norm_num) hd)]
    exact Nat.ofDigits_digits 10 n

theorem natToChars_length_le {n k : Nat} (hn : n < 10 ^ k) (hk : 0 < k) :
    (natToChars n).length ≤ k := by
  unfold natToChars
  split
  · simpa using hk
  · rw [List.length_reverse, List.length_map, digitsRev_spec]
    by_cases h0 : n = 0
    · simp [h0]
    · by_contra hgt
      push_neg at hgt
      have h1 : 10 ^ (Nat.digits 10 n).length ≤ 10 * n :=
        Nat.base_pow_length_digits_le 10 n (by norm_num) h0
      have h2 : 10 ^ (k + 1) ≤ 10 ^ (Nat.digits 10 n).length :=
        Nat.pow_le_pow_right (by norm_num) hgt
      have h3 : 10 ^ k * 10 ≤ 10 * n := by
        rw [← pow_succ]; exact le_trans h2 h1
      omega

theorem takeWhile_all {p : Char → Bool} {l : List Char}
    (h : ∀ c ∈ l, p c = true) : l.takeWhile p = l := by
  induction l with
  | nil => rfl
  | cons a l ih =>
    rw [List.takeWhile_cons, h a (List.mem_cons_self a l)]
    rw [ih fun c hc => h c (List.mem_cons_of_mem a hc)]
    simp

theorem dropWhile_all {p : Char → Bool} {l : List Char}
    (h : ∀ c ∈ l, p c = true) : l.dropWhile p = [] := by
  induction l with
  | nil => rfl
  | cons a l ih =>
    rw [List.dropWhile_cons, h a (List.mem_cons_self a l)]
    simp only [if_true]
    exact ih fun c hc => h c (List.mem_cons_of_mem a hc)

theorem takeWhile_append_all {p : Char → Bool} {l1 : List Char}
    (c : Char) (l2 : List Char)
    (h : ∀ x ∈ l1, p x = true) (hc : p c = false) :
    (l1 ++ c :: l2).takeWhile p = l1 := by
  induction l1 with
  | nil => simp [List.takeWhile_cons, hc]
  | cons a l1 ih =>
    rw [List.cons_append, List.takeWhile_cons, h a (List.mem_cons_self a l1)]
    rw [ih fun x hx => h x (List.mem_cons_of_mem a hx)]
    simp

theorem dropWhile_append_all {p : Char → Bool} {l1 : List Char}
    (c : Char) (l2 : List Char)
    (h : ∀ x ∈ l1, p x = true) (hc : p c = false) :
    (l1 ++ c :: l2).dropWhile p = c :: l2 := by
  induction l1 with
  | nil => simp [List.dropWhile_cons, hc]
  | cons a l1 ih =>
    rw [List.cons_append, List.dropWhile_cons, h a (List.mem_cons_self a l1)]
    simp only [if_true]
    exact ih fun x hx => h x (List.mem_cons_of_mem a hx)

theorem parseNatChars_replicate_zero (j : Nat) (l : List Char) :
    parseNatChars (List.replicate j '0' ++ l) = parseNatChars l := by
  induction j with
  | zero => rfl
  | succ j ih =>
    rw [List.replicate_succ, List.cons_append]
    unfold parseNatChars at ih ⊢
    simpa using ih

theorem padDigits_all_digit (n k : Nat) :
    ∀ c ∈ padDigits n k, isDigitChar c = true := by
  intro c hc
  unfold padDigits at hc
  rcases List.mem_append.mp hc with h | h
  · rw [List.eq_of_mem_replicate h]; decide
  · exact natToChars_all_digit n c h

theorem padDigits_length {n k : Nat} (hn : n < 10 ^ k) (hk : 0 < k) :
    (padDigits n k).length = k := by
  unfold padDigits
  rw [List.length_append, List.length_replicate]
  have := natToChars_length_le hn hk
  omega

theorem padDigits_ne_nil {n k : Nat} (hk : 0 < k) (hn : n < 10 ^ k) :
    padDigits n k ≠ [] := by
  intro h
  have := padDigits_length hn hk
  rw [h] at this
  simp at this
  omega

theorem parseNatChars_padDigits (n k : Nat) :
    parseNatChars (padDigits n k) = n := by
  unfold padDigits
  rw [parseNatChars_replicate_zero, parseNatChars_natToChars]

theorem dropPre_append (p r : List Char) : dropPre p (p ++ r) = some r := by
  induction p with
  | nil => rfl
  | cons c p ih => simp [dropPre, ih]

theorem stripZeros_spec (k : Nat) : ∀ m : Nat,
    (stripZeros m k).1 * 10 ^ (k - (stripZeros m k).2) = m ∧
      (stripZeros m k).2 ≤ k := by
  induction k with
  | zero => intro m; simp [stripZeros]
  | succ k ih =>
    intro m
    rw [stripZeros]
    split
    · rename_i hm
      obtain ⟨h1, h2⟩ := ih (m / 10)
      refine ⟨?_, le_trans h2 (Nat.le_succ k)⟩
      have hsub : k + 1 - (stripZeros (m / 10) k).2 =
          (k - (stripZeros (m / 10) k).2) + 1 := by omega
      rw [hsub, pow_succ, ← mul_assoc, h1]
      omega
    · simp

theorem fmtQ_chars (q : ℚ) :
    ∀ c ∈ fmtQ q, isDigitChar c = true ∨ c = '-' ∨ c = '.' := by
  intro c hc
  have hsgn : ∀ x ∈ (if q < 0 then ['-'] else ([] : List Char)),
      isDigitChar x = true ∨ x = '-' ∨ x = '.' := by
    split <;> intro x hx
    · simp only [List.mem_singleton] at hx
      exact Or.inr (Or.inl hx)
    · cases hx
  simp only [fmtQ] at hc
  split at hc
  · rcases List.mem_append.mp hc with h | h
    · exact hsgn c h
    · exact Or.inl (natToChars_all_digit _ c h)
  · rcases List.mem_append.mp hc with h | h
    · rcases List.mem_append.mp h with h' | h'
      · exact hsgn c h'
      · exact Or.inl (natToChars_all_digit _ c h')
    · rcases List.mem_cons.mp h with rfl | h'
      · exact Or.inr (Or.inr rfl)
      · exact Or.inl (padDigits_all_digit _ _ c h')

theorem fmtQ_ne_char (q : ℚ) (c0 : Char) (h1 : isDigitChar c0 = false)
    (h2 : c0 ≠ '-') (h3 : c0 ≠ '.') :
    ∀ c ∈ fmtQ q, (decide (c ≠ c0)) = true := by
  intro c hc
  simp only [decide_eq_true_eq]
  intro heq
  rcases fmtQ_chars q c hc with h | h | h
  · rw [heq, h1] at h; cases h
  · exact h2 (heq ▸ h)
  · exact h3 (heq ▸ h)

theorem natToChars_ne_char (n : Nat) (c0 : Char) (h1 : isDigitChar c0 = false) :
    ∀ c ∈ natToChars n, (decide (c ≠ c0)) = true := by
  intro c hc
  simp only [decide_eq_true_eq]
  intro heq
  have h := natToChars_all_digit n c hc
  rw [heq, h1] at h
  cases h

theorem natToChars_head_digit (n : Nat) :
    ∃ c cs, natToChars n = c :: cs ∧ isDigitChar c = true := by
  obtain ⟨c, cs, hc⟩ := List.exists_cons_of_ne_nil (natToChars_ne_nil n)
  exact ⟨c, cs, hc, natToChars_all_digit n c (hc ▸ List.mem_cons_self c cs)⟩

theorem not_dash_cons (l : List Char)
    (h : ∃ c cs, l = c :: cs ∧ isDigitChar c = true) :
    ∀ rest, l ≠ '-' :: rest := by
  obtain ⟨c, cs, rfl, hc⟩ := h
  intro rest heq
  injection heq with h1 _
  rw [h1] at hc
  cases hc

theorem parseQ_neg (rest : List Char) :
    parseQ ('-' :: rest) = (parseUnsigned rest).map (fun v => -v) := rfl

theorem parseQ_not_neg (l : List Char) (h : ∀ rest, l ≠ '-' :: rest) :
    parseQ l = parseUnsigned l := by
  cases l with
  | nil => rfl
  | cons c cs =>
    by_cases hc : c = '-'
    · subst hc; exact absurd rfl (h cs)
    · unfold parseQ
      split
      · rename_i rest heq
        injection heq with h1 _
        exact absurd h1 hc
      · rfl

theorem parseUnsigned_int (a : Nat) :
    parseUnsigned (natToChars a) = some ((a : ℕ) : ℚ) := by
  simp only [parseUnsigned, takeWhile_all (natToChars_all_digit a),
    dropWhile_all (natToChars_all_digit a), parseNatChars_natToChars,
    natToChars_ne_nil a, if_false, ite_false]

theorem parseUnsigned_frac (I Fr z : Nat) (hz : 0 < z) (hFr : Fr < 10 ^ z) :
    parseUnsigned (natToChars I ++ '.' :: padDigits Fr z) =
      some (((I : ℕ) : ℚ) + ((Fr : ℕ) : ℚ) / (10 : ℚ) ^ z) := by
  have hdig := natToChars_all_digit I
  have hdot : isDigitChar '.' = false := by decide
  simp only [parseUnsigned, takeWhile_append_all '.' _ hdig hdot,
    dropWhile_append_all '.' _ hdig hdot, parseNatChars_natToChars,
    natToChars_ne_nil I, if_false, ite_false]
  rw [if_pos ⟨padDigits_ne_nil hz hFr,
    List.all_eq_true.mpr (padDigits_all_digit Fr z)⟩]
  rw [parseNatChars_padDigits, padDigits_length hFr hz]

theorem abs_value_eq (q : ℚ) (h : ¬ q < 0) :
    ((q.num.natAbs : ℕ) : ℚ) / ((q.den : ℕ) : ℚ) = q := by
  have hnum : 0 ≤ q.num := Rat.num_nonneg.mpr (not_lt.mp h)
  have h3 : ((q.num.natAbs : ℕ) : ℤ) = q.num := by omega
  have h4 : ((q.num.natAbs : ℕ) : ℚ) = ((q.num : ℤ) : ℚ) := by
    calc ((q.num.natAbs : ℕ) : ℚ) = (((q.num.natAbs : ℕ) : ℤ) : ℚ) :=
          (Int.cast_natCast _).symm
      _ = ((q.num : ℤ) : ℚ) := by rw [h3]
  rw [h4, Rat.num_div_den]

theorem abs_value_eq_neg (q : ℚ) (h : q < 0) :
    -(((q.num.natAbs : ℕ) : ℚ) / ((q.den : ℕ) : ℚ)) = q := by
  have hnum : q.num < 0 := by
    by_contra hge
    push_neg at hge
    exact absurd (Rat.num_nonneg.mp hge) (not_le.mpr h)
  have h3 : ((q.num.natAbs : ℕ) : ℤ) = -q.num := by omega
  have h4 : ((q.num.natAbs : ℕ) : ℚ) = -((q.num : ℤ) : ℚ) := by
    calc ((q.num.natAbs : ℕ) : ℚ) = (((q.num.natAbs : ℕ) : ℤ) : ℚ) :=
          (Int.cast_natCast _).symm
      _ = ((-q.num : ℤ) : ℚ) := by rw [h3]
      _ = -((q.num : ℤ) : ℚ) := by push_cast; ring
  rw [h4, neg_div, neg_neg, Rat.num_div_den]

theorem parseQ_fmtQ (q : ℚ) (hq : DecimalRep q) : parseQ (fmtQ q) = some q := by
  by_cases hden : q.den = 1
  · by_cases hneg : q < 0
    · have hfmt : fmtQ q = '-' :: natToChars q.num.natAbs := by
        simp [fmtQ, hden, hneg]
      rw [hfmt, parseQ_neg, parseUnsigned_int]
      simp only [Option.map_some']
      congr 1
      have := abs_value_eq_neg q hneg
      rw [hden] at this
      simpa using this
    · have hfmt : fmtQ q = natToChars q.num.natAbs := by
        simp [fmtQ, hden, hneg]
      rw [hfmt, parseQ_not_neg _ (not_dash_cons _ (natToChars_head_digit _)),
        parseUnsigned_int]
      congr 1
      have := abs_value_eq q hneg
      rw [hden] at this
      simpa using this
  · have hbk : q.den ∣ 10 ^ q.den := hq
    rcases hp : stripZeros (q.num.natAbs * 10 ^ q.den / q.den) q.den with ⟨m', z⟩
    have hspec := stripZeros_spec q.den (q.num.natAbs * 10 ^ q.den / q.den)
    rw [hp] at hspec
    obtain ⟨hstrip1, hzk⟩ := hspec
    have hm : q.num.natAbs * 10 ^ q.den / q.den * q.den
        = q.num.natAbs * 10 ^ q.den :=
      Nat.div_mul_cancel (Dvd.dvd.mul_left hbk q.num.natAbs)
    have hz : 0 < z := by
      by_contra hz0
      push_neg at hz0
      have hzeq : z = 0 := Nat.le_zero.mp hz0
      subst hzeq
      have h1 : m' * 10 ^ q.den = q.num.natAbs * 10 ^ q.den / q.den := by
        simpa using hstrip1
      have h2 : m' * q.den * 10 ^ q.den = q.num.natAbs * 10 ^ q.den := by
        calc m' * q.den * 10 ^ q.den = m' * 10 ^ q.den * q.den := by ring
          _ = q.num.natAbs * 10 ^ q.den / q.den * q.den := by rw [h1]
          _ = q.num.natAbs * 10 ^ q.den := hm
      have h3 : m' * q.den = q.num.natAbs :=
        Nat.eq_of_mul_eq_mul_right (pow_pos (by norm_num) _) h2
      have hdvd : q.den ∣ q.num.natAbs := ⟨m', by rw [← h3]; ring⟩
      have hgcd : q.den ∣ Nat.gcd q.num.natAbs q.den :=
        Nat.dvd_gcd hdvd dvd_rfl
      rw [q.reduced] at hgcd
      exact hden (Nat.dvd_one.mp hgcd)
    have hFr : m' % 10 ^ z < 10 ^ z := Nat.mod_lt _ (pow_pos (by norm_num) z)
    have hval : ((m' / 10 ^ z : ℕ) : ℚ) + ((m' % 10 ^ z : ℕ) : ℚ) / (10:ℚ) ^ z
        = ((q.num.natAbs : ℕ) : ℚ) / ((q.den : ℕ) : ℚ) := by
      have hq10 : ((10:ℚ)) ^ z ≠ 0 := pow_ne_zero _ (by norm_num)
      have hqden : ((q.den : ℕ) : ℚ) ≠ 0 := Nat.cast_ne_zero.mpr q.den_nz
      have e1 : ((m' / 10 ^ z : ℕ) : ℚ) + ((m' % 10 ^ z : ℕ) : ℚ) / (10:ℚ) ^ z
          = ((m' : ℕ) : ℚ) / (10:ℚ) ^ z := by
        have hnat : m' / 10 ^ z * 10 ^ z + m' % 10 ^ z = m' := by
          rw [mul_comm]
          exact Nat.div_add_mod m' (10 ^ z)
        field_simp
        exact_mod_cast hnat
      rw [e1, div_eq_div_iff hq10 hqden]
      have hnat2 : m' * q.den = q.num.natAbs * 10 ^ z := by
        have hc3 : 10 ^ z * 10 ^ (q.den - z) = 10 ^ q.den := by
          rw [← pow_add]
          congr 1
          omega
        have hmul : m' * q.den * 10 ^ (q.den - z)
            = q.num.natAbs * 10 ^ z * 10 ^ (q.den - z) := by
          calc m' * q.den * 10 ^ (q.den - z)
              = m' * 10 ^ (q.den - z) * q.den := by ring
            _ = q.num.natAbs * 10 ^ q.den / q.den * q.den := by rw [hstrip1]
            _ = q.num.natAbs * 10 ^ q.den := hm
            _ = q.num.natAbs * (10 ^ z * 10 ^ (q.den - z)) := by rw [hc3]
            _ = q.num.natAbs * 10 ^ z * 10 ^ (q.den - z) := by ring
        exact Nat.eq_of_mul_eq_mul_right (pow_pos (by norm_num) _) hmul
      exact_mod_cast hnat2
    by_cases hneg : q < 0
    · have hfmt : fmtQ q = '-' ::
          (natToChars (m' / 10 ^ z) ++ '.' :: padDigits (m' % 10 ^ z) z) := by
        simp [fmtQ, hden, hneg, hp]
      rw [hfmt, parseQ_neg, parseUnsigned_frac _ _ _ hz hFr]
      simp only [Option.map_some']
      congr 1
      rw [hval]
      exact abs_value_eq_neg q hneg
    · have hfmt : fmtQ q =
          natToChars (m' / 10 ^ z) ++ '.' :: padDigits (m' % 10 ^ z) z := by
        simp [fmtQ, hden, hneg, hp]
      have hhead : ∃ c cs,
          (natToChars (m' / 10 ^ z) ++ '.' :: padDigits (m' % 10 ^ z) z)
            = c :: cs ∧ isDigitChar c = true := by
        obtain ⟨c, cs, hc, hcd⟩ := natToChars_head_digit (m' / 10 ^ z)
        exact ⟨c, cs ++ '.' :: padDigits (m' % 10 ^ z) z,
          by rw [hc, List.cons_append], hcd⟩
      rw [hfmt, parseQ_not_neg _ (not_dash_cons _ hhead),
        parseUnsigned_frac _ _ _ hz hFr]
      congr 1
      rw [hval]
      exact abs_value_eq q hneg

theorem dropPre_cons_append (c : Char) (p r : List Char) :
    dropPre (c :: p) (c :: (p ++ r)) = some r := by
  simp [dropPre, dropPre_append]

theorem fieldQ_take (v : ℚ) (sep : Char)
    (hsep1 : isDigitChar sep = false) (hsep2 : sep ≠ '-') (hsep3 : sep ≠ '.') :
    ∀ r : List Char,
      (fmtQ v ++ sep :: r).takeWhile (fun c => decide (c ≠ sep)) = fmtQ v := by
  intro r
  exact takeWhile_append_all sep _ (fmtQ_ne_char v sep hsep1 hsep2 hsep3)
    (by simp)

theorem fieldQ_drop (v : ℚ) (sep : Char)
    (hsep1 : isDigitChar sep = false) (hsep2 : sep ≠ '-') (hsep3 : sep ≠ '.') :
    ∀ r : List Char,
      (fmtQ v ++ sep :: r).dropWhile (fun c => decide (c ≠ sep)) = sep :: r := by
  intro r
  exact dropWhile_append_all sep _ (fmtQ_ne_char v sep hsep1 hsep2 hsep3)
    (by simp)

theorem name_take (name : List Char) (hname : ∀ c ∈ name, c ≠ '"') :
    ∀ r : List Char,
      (name ++ '"' :: r).takeWhile (fun c => decide (c ≠ '"')) = name := by
  intro r
  exact takeWhile_append_all '"' _
    (fun c hc => by simpa using hname c hc) (by simp)

theorem name_drop (name : List Char) (hname : ∀ c ∈ name, c ≠ '"') :
    ∀ r : List Char,
      (name ++ '"' :: r).dropWhile (fun c => decide (c ≠ '"')) = '"' :: r := by
  intro r
  exact dropWhile_append_all '"' _
    (fun c hc => by simpa using hname c hc) (by simp)


theorem parseField_encode (v : ℚ) (hv : DecimalRep v) (sep : Char)
    (hs1 : isDigitChar sep = false) (hs2 : sep ≠ '-') (hs3 : sep ≠ '.')
    (lit' r : List Char) :
    parseField sep (sep :: lit') (fmtQ v ++ ((sep :: lit') ++ r)) =
      some (v, r) := by
  rw [List.cons_append]
  unfold parseField
  rw [fieldQ_take v sep hs1 hs2 hs3, fieldQ_drop v sep hs1 hs2 hs3,
    parseQ_fmtQ v hv, dropPre_cons_append]

theorem parseName_encode (nm : List Char) (hname : ∀ c ∈ nm, c ≠ '"')
    (r : List Char) :
    parseName (nm ++
        (('"' :: ',' :: 'g' :: 'p' :: 'u' :: '_' :: 'u' :: 's' :: 'a' ::
          'g' :: 'e' :: '=' :: []) ++ r)) = some (nm, r) := by
  rw [List.cons_append]
  unfold parseName
  rw [name_take nm hname, name_drop nm hname]
  rw [show ("\",gpu_usage=".data : List Char) =
    '"' :: ',' :: 'g' :: 'p' :: 'u' :: '_' :: 'u' :: 's' :: 'a' ::
      'g' :: 'e' :: '=' :: [] from rfl]
  simp +decide [dropPre, List.cons_append, List.nil_append, dropPre_append]

theorem parseTail_encode (u : ℚ) (hu : DecimalRep u) (ts : Nat) :
    parseTail (fmtQ u ++ ((' ' :: []) ++ natToChars ts)) = some (u, ts) := by
  rw [List.cons_append, List.nil_append]
  unfold parseTail
  rw [fieldQ_take u ' ' (by decide) (by decide) (by decide),
    fieldQ_drop u ' ' (by decide) (by decide) (by decide),
    parseQ_fmtQ u hu]
  simp [natToChars_ne_nil ts, List.all_eq_true.mpr (natToChars_all_digit ts),
    parseNatChars_natToChars]

/-- C9 (amended): every Sample whose process name contains no
double-quote character and whose rates are finite values with
terminating decimal expansions (as every finite binary float has)
round-trips: parsing the encoded line-protocol record recovers exactly
the field values that went in, with the process name read back from its
quoted string field. -/
theorem parseLine_encode (s : Sample) (d u : ℚ)
    (hd : s.download_rate = .fin d) (hu : s.upload_rate = .fin u)
    (hname : ∀ c ∈ s.heaviest_process_name, c ≠ '"')
    (h1 : DecimalRep s.cpu_usage) (h2 : DecimalRep s.ram_usage)
    (h3 : DecimalRep s.gpu_usage) (h4 : DecimalRep s.gpu_temp)
    (h5 : DecimalRep s.gpu_power) (h6 : DecimalRep d) (h7 : DecimalRep u) :
    parseLine (encodeSampleChars s) = some s := by
  obtain ⟨cpu, ram, nm, gu, gt, gp, dl, ul, ts⟩ := s
  simp only at hd hu hname h1 h2 h3 h4 h5
  subst hd
  subst hu
  simp only [parseLine, encodeSampleChars, fmtF, List.append_assoc,
    dropPre_append,
    parseField_encode cpu h1 ',' (by decide) (by decide) (by decide),
    parseField_encode ram h2 ',' (by decide) (by decide) (by decide),
    parseName_encode nm hname,
    parseField_encode gu h3 ',' (by decide) (by decide) (by decide),
    parseField_encode gt h4 ',' (by decide) (by decide) (by decide),
    parseField_encode gp h5 ',' (by decide) (by decide) (by decide),
    parseField_encode d h6 ',' (by decide) (by decide) (by decide),
    parseTail_encode u h7 ts,
    Option.some_bind, Option.map_some']

/-- Witness for C9: the concrete sample of the spec's encoding example
round-trips through the modelled parser. -/
theorem parseLine_encode_witness :
    parseLine (encodeSampleChars
      { cpu_usage := mkRat 25 2, ram_usage := mkRat 16 5,
        heaviest_process_name := "chrome".data,
        gpu_usage := -1, gpu_temp := -1, gpu_power := -1,
        download_rate := .fin 1024, upload_rate := .fin 512,
        timestamp := 1700000000000000000 }) =
      some
        { cpu_usage := mkRat 25 2, ram_usage := mkRat 16 5,
          heaviest_process_name := "chrome".data,
          gpu_usage := -1, gpu_temp := -1, gpu_power := -1,
          download_rate := .fin 1024, upload_rate := .fin 512,
          timestamp := 1700000000000000000 } :=
  parseLine_encode _ 1024 512 rfl rfl (by decide) (by decide) (by decide)
    (by decide) (by decide) (by decide) (by decide) (by decide)

/-- C9 counterexample: the encoder does not escape double quotes in the
process name, so the sample whose heaviest process is named `a"b`
produces a record whose quoted string field ends early — parsing the
encoded line fails entirely instead of recovering the field values,
refuting the claim for arbitrary name strings. -/
theorem parseLine_encode_quote_fails :
    parseLine (encodeSampleChars
      { cpu_usage := 0, ram_usage := 0,
        heaviest_process_name := 'a' :: '"' :: 'b' :: [],
        gpu_usage := 0, gpu_temp := 0, gpu_power := 0,
        download_rate := .fin 0, upload_rate := .fin 0,
        timestamp := 0 }) = none := by
  have henc : encodeSampleChars
      { cpu_usage := 0, ram_usage := 0,
        heaviest_process_name := 'a' :: '"' :: 'b' :: [],
        gpu_usage := 0, gpu_temp := 0, gpu_power := 0,
        download_rate := .fin 0, upload_rate := .fin 0,
        timestamp := 0 } =
      "system_metrics,host=localhost cpu_usage=0,ram_usage=0,heaviest_process=\"a\"b\",gpu_usage=0,gpu_temp=0,gpu_power=0,download_rate=0,upload_rate=0 0".data := by
    simp +decide [encodeSampleChars, fmtQ, fmtF, natToChars, digitsRev_eq,
      show ((0:ℚ)).den = 1 from by decide,
      show ((0:ℚ)).num = 0 from by decide,
      show ¬ ((0:ℚ)) < 0 from by decide]
  rw [henc]
  decide
